import Mathlib

/-!
Verification of the segmentation, summarization and hypothesis-testing core of
the `symbolicconnectors_v2` repository, as a shallow embedding in Lean 4.

Texts are lists of characters; the connector dictionary is an insertion-ordered
association list (mirroring a Python `dict`); the connector/boundary regexes of
`hash.py` are embedded as an explicit matcher over the alternation of escaped
connector keys (optionally word-boundary wrapped) and the strong-punctuation
class, with Python's leftmost, first-alternative semantics.
-/

namespace SymbolicConnectors

/-- A text is a list of characters; `chars` converts a literal. -/
def chars (s : String) : List Char := s.data

/-- Python's `\w` (word character) for the character sets exercised here:
letters, digits and the underscore. -/
def isWordChar (c : Char) : Bool := c.isAlphanum || c == '_'

/-- Python's `str.isspace`/`\s` class for the characters exercised here. -/
def pyIsSpace (c : Char) : Bool :=
  c == ' ' || c == '\t' || c == '\n' || c == '\r' ||
    c == '\x0b' || c == '\x0c'

/-- Characters on which Python's `str.splitlines` breaks a line
(the `\r\n` pair is handled separately by `pySplitlinesAux`). -/
def isLineBreakChar (c : Char) : Bool :=
  c == '\n' || c == '\r' || c == '\x0b' || c == '\x0c' ||
    c == '\x1c' || c == '\x1d' || c == '\x1e' || c == '\x85' ||
    c == ' ' || c == ' '

/-- Worker for `pySplitlines`: accumulates the current line (reversed). -/
def pySplitlinesAux : List Char → List Char → List (List Char)
  | [], cur => [cur.reverse]
  | '\r' :: '\n' :: rest, cur =>
      cur.reverse :: (if rest.isEmpty then [] else pySplitlinesAux rest [])
  | c :: rest, cur =>
      if isLineBreakChar c then
        cur.reverse :: (if rest.isEmpty then [] else pySplitlinesAux rest [])
      else
        pySplitlinesAux rest (c :: cur)

/-- Python `str.splitlines()`. -/
def pySplitlines (t : List Char) : List (List Char) :=
  if t.isEmpty then [] else pySplitlinesAux t []

/-- Python `str.lstrip()`. -/
def pyLstrip (t : List Char) : List Char := t.dropWhile pyIsSpace

/-- Python `str.strip()`. -/
def pyStrip (t : List Char) : List Char :=
  ((t.dropWhile pyIsSpace).reverse.dropWhile pyIsSpace).reverse

/-- Python `str.strip(" \t")`: trim spaces and tabs only, from both ends. -/
def pyStripSpaceTab (t : List Char) : List Char :=
  ((t.dropWhile (fun c => c == ' ' || c == '\t')).reverse.dropWhile
      (fun c => c == ' ' || c == '\t')).reverse

/-- Truthiness of `segment.strip()`: the segment has a non-space character. -/
def hasContent (t : List Char) : Bool := t.any (fun c => !pyIsSpace c)

/-- `METADATA_LINE_PATTERN.match(line)`: the line matches `^\s*\*{4}`. -/
def isMetadataLine (line : List Char) : Bool :=
  (line.dropWhile pyIsSpace).take 4 == chars "****"

/-- `hash._remove_metadata_lines`: drop every line matching `^\s*\*{4}`;
if any line was dropped, rejoin with `\n` and `lstrip` the result. -/
def removeMetadataLines (text : List Char) : List Char :=
  if text.isEmpty then text
  else
    let lines := pySplitlines text
    let cleaned := lines.filter (fun line => !isMetadataLine line)
    if cleaned.length == lines.length then text
    else pyLstrip (List.intercalate (chars "\n") cleaned)

/-- The shape of the regex fragment built for one connector key:
empty, the `\r?\n` alternative, the escaped literal, or the literal wrapped in
`\b` word-boundary anchors. -/
inductive RegexForm where
  | vide : RegexForm
  | newlineAlt : RegexForm
  | litteral : List Char → RegexForm
  | borne : List Char → RegexForm
deriving DecidableEq

/-- `hash._wrap_connector_regex`: wrap the escaped key in `\b` anchors unless
the key has no word character (`re.search(r"\w", key)` fails). -/
def wrapConnectorRegex (key : List Char) : RegexForm :=
  if key.any isWordChar then .borne key else .litteral key

/-- `analyses._connector_to_regex`: empty key gives an empty regex, the
canonical newline key gives `\r?\n`, and the escaped key is wrapped in `\b`
anchors exactly when its first and last characters are alphanumeric. -/
def connectorToRegex (key : List Char) : RegexForm :=
  if key.isEmpty then .vide
  else if key == chars "\n" then .newlineAlt
  else if (key.headD ' ').isAlphanum && (key.getLastD ' ').isAlphanum then
    .borne key
  else .litteral key

/-- Case-insensitive character comparison (`re.IGNORECASE`). -/
def ciEqChar (a b : Char) : Bool := a.toLower == b.toLower

/-- `key` is a case-insensitive prefix of `s`. -/
def ciPrefixOf : List Char → List Char → Bool
  | [], _ => true
  | _ :: _, [] => false
  | k :: ks, s :: ss => ciEqChar k s && ciPrefixOf ks ss

/-- Case-insensitive equality of two character lists. -/
def ciEqList : List Char → List Char → Bool
  | [], [] => true
  | [], _ :: _ => false
  | _ :: _, [] => false
  | k :: ks, s :: ss => ciEqChar k s && ciEqList ks ss

/-- Whether an optional character is a word character (absent = not a word
character, as at the edges of the subject string). -/
def wOpt : Option Char → Bool
  | none => false
  | some c => isWordChar c

/-- `\b` holds between two (possibly absent) characters iff exactly one side
is a word character. -/
def wordBoundaryBetween (a b : Option Char) : Bool := wOpt a != wOpt b

/-- Whether the regex fragment for `key`, as built by
`hash._wrap_connector_regex`, matches in `text` at position `i`. -/
def matchKeyAt (text : List Char) (i : Nat) (key : List Char) : Bool :=
  ciPrefixOf key (text.drop i) &&
    (match wrapConnectorRegex key with
     | .borne _ =>
        wordBoundaryBetween (if i == 0 then none else text.get? (i - 1))
            (text.get? i) &&
          wordBoundaryBetween (text.get? (i + key.length - 1))
            (text.get? (i + key.length))
     | _ => true)

/-- The strong-punctuation class `[\.!?;:]`. -/
def isStrongPunct (c : Char) : Bool :=
  c == '.' || c == '!' || c == '?' || c == ';' || c == ':'

/-- Match of the boundary pattern (connector alternation, then optionally the
greedy `[\.!?;:]+` class) at position `i`: the matched length, if any.
Alternatives are tried in order, as Python's regex engine does. -/
def matchBoundaryAt (keys : List (List Char)) (punct : Bool)
    (text : List Char) (i : Nat) : Option Nat :=
  match keys.find? (fun k => matchKeyAt text i k) with
  | some k => some k.length
  | none =>
      if punct then
        let run := ((text.drop i).takeWhile isStrongPunct).length
        if run == 0 then none else some run
      else none

/-- Worker for `findMatches`: scan positions left to right, resuming after
each match (`re.finditer` semantics; all matches here are non-empty). -/
def findMatchesAux (keys : List (List Char)) (punct : Bool)
    (text : List Char) : Nat → Nat → List (Nat × Nat)
  | _, 0 => []
  | i, fuel + 1 =>
      if i < text.length then
        match matchBoundaryAt keys punct text i with
        | some l => (i, l) :: findMatchesAux keys punct text (i + l) fuel
        | none => findMatchesAux keys punct text (i + 1) fuel
      else []

/-- All non-overlapping leftmost matches of the boundary pattern, as
`(start, length)` pairs. -/
def findMatches (keys : List (List Char)) (punct : Bool)
    (text : List Char) : List (Nat × Nat) :=
  findMatchesAux keys punct text 0 text.length

/-- `connector_pattern.search(text)` succeeds. -/
def connectorSearch (keys : List (List Char)) (text : List Char) : Bool :=
  !(findMatches keys false text).isEmpty

/-- `fullmatch` of the regex fragment for one connector key against a whole
string: case-insensitive equality, plus the `\b` anchors when wrapped (at the
string edges these require a word character just inside). -/
def fullmatchKey (key b : List Char) : Bool :=
  ciEqList key b &&
    (match wrapConnectorRegex key with
     | .borne _ => wOpt b.head? && wOpt b.getLast?
     | _ => true)

/-- `hash._is_connector`: the boundary text is non-empty and fully matches
some alternative of the connector-only pattern. -/
def isConnecteur (keys : List (List Char)) : Option (List Char) → Bool
  | none => false
  | some b => !b.isEmpty && keys.any (fun k => fullmatchKey k b)

/-- `text[a:b]` for `0 ≤ a ≤ b`. -/
def slice (text : List Char) (a b : Nat) : List Char :=
  (text.drop a).take (b - a)

/-- One boundary-delimited candidate segment: its text, the preceding boundary
text and the following boundary text. -/
abbrev SegmentTriple := List Char × Option (List Char) × Option (List Char)

/-- Worker for `segmentsWithBoundaries`: walk the boundary matches keeping a
candidate segment only when it has content and one adjacent boundary is a
connector; the trailing text is kept only after a connector boundary. -/
def segmentsLoop (keys : List (List Char)) (text : List Char) :
    List (Nat × Nat) → Nat → Option (List Char) → List SegmentTriple
  | [], lastEnd, prev =>
      let trailing := text.drop lastEnd
      if hasContent trailing && isConnecteur keys prev then
        [(trailing, prev, none)]
      else []
  | (s, l) :: ms, lastEnd, prev =>
      let segment := slice text lastEnd s
      let nextConnector := slice text s (s + l)
      let rest := segmentsLoop keys text ms (s + l) (some nextConnector)
      if hasContent segment &&
          (isConnecteur keys prev || isConnecteur keys (some nextConnector)) then
        (segment, prev, some nextConnector) :: rest
      else rest

/-- `hash._segments_with_boundaries` applied to the matches of the boundary
pattern (connector keys, optionally strong punctuation). -/
def segmentsWithBoundaries (keys : List (List Char)) (punct : Bool)
    (text : List Char) : List SegmentTriple :=
  segmentsLoop keys text (findMatches keys punct text) 0 none

/-- The two segmentation modes. -/
inductive SegmentationMode where
  | connecteurs : SegmentationMode
  | connecteursEtPonctuation : SegmentationMode
deriving DecidableEq

/-- A connector dictionary: an insertion-ordered association list from
connector key to category label. -/
abbrev Connectors := List (List Char × List Char)

/-- `hash._build_connector_pattern`'s key list: the non-empty keys, sorted by
decreasing length (Python's `sorted` is stable, as is `insertionSort`). -/
def sortedConnectorKeys (connectors : Connectors) : List (List Char) :=
  List.insertionSort (fun a b : List Char => b.length ≤ a.length)
    ((connectors.map Prod.fst).filter (fun k => !k.isEmpty))

/-- `hash.split_segments_by_connectors`. -/
def splitSegmentsByConnectors (text : List Char) (connectors : Connectors)
    (mode : SegmentationMode) : List (List Char) :=
  if text.isEmpty then []
  else
    let t := removeMetadataLines text
    let keys := sortedConnectorKeys connectors
    if keys.isEmpty then []
    else if !connectorSearch keys t then [t]
    else
      let punct := mode == SegmentationMode.connecteursEtPonctuation
      (segmentsWithBoundaries keys punct t).map (fun e => e.1)


/-- Stated from the spec's words for claim C3: the connector key is non-empty
and alphanumeric at both ends. -/
def bothEndsAlnum (key : List Char) : Bool :=
  !key.isEmpty &&
    ((key.headD ' ').isAlphanum && (key.getLastD ' ').isAlphanum)


/-- Worker for `tokenizeRegex`: accumulate the current run of word
characters (reversed). -/
def tokenizeRegexAux : List Char → List Char → List (List Char)
  | [], cur => if cur.isEmpty then [] else [cur.reverse]
  | c :: rest, cur =>
      if isWordChar c then tokenizeRegexAux rest (c :: cur)
      else if cur.isEmpty then tokenizeRegexAux rest []
      else cur.reverse :: tokenizeRegexAux rest []

/-- `hash._tokenize_regex`: `re.findall(r"\b\w+\b", text)`, i.e. the maximal
runs of word characters. -/
def tokenizeRegex (text : List Char) : List (List Char) :=
  tokenizeRegexAux text []

/-- `hash.compute_segment_word_lengths`, parameterized by the tokenizer
(`tok` is `tokenizeRegex` in regex mode; spaCy mode is an external model and
enters only through this parameter): the word count of each segment that has
at least one token. -/
def computeSegmentWordLengths (tok : List Char → List (List Char))
    (text : List Char) (connectors : Connectors)
    (mode : SegmentationMode) : List Nat :=
  (splitSegmentsByConnectors text connectors mode).filterMap
    (fun segment =>
      let tokens := tok segment
      if tokens.isEmpty then none else some tokens.length)

/-- `hash.average_segment_length` (LMS): `statistics.mean` of the lengths,
and `0.0` when there are none. -/
def averageSegmentLength (tok : List Char → List (List Char))
    (text : List Char) (connectors : Connectors)
    (mode : SegmentationMode) : ℚ :=
  let lengths := computeSegmentWordLengths tok text connectors mode
  if lengths.isEmpty then 0
  else ((lengths.map (fun n : Nat => (n : ℚ))).sum) / lengths.length

/-- `np.median` over exact rationals: middle element of the sorted list, or
the mean of the two middle elements. -/
def npMedianQ (l : List ℚ) : ℚ :=
  let s := List.insertionSort (· ≤ ·) l
  let n := s.length
  if n = 0 then 0
  else if n % 2 = 1 then s.getD (n / 2) 0
  else (s.getD (n / 2 - 1) 0 + s.getD (n / 2) 0) / 2

/-- The record returned by `hash.resumer_longueurs_segments`; floats are
modelled exactly (rationals, and reals for the square-root-valued fields). -/
structure ResumeLongueurs where
  lms : ℚ
  ecart_type : ℝ
  coefficient_variation : ℝ
  mediane : ℚ
  proportion_courts : ℚ

/-- `hash.resumer_longueurs_segments`: `None` on an empty list, otherwise the
mean, population (ddof 0) standard deviation, coefficient of variation
(`0` when the mean is `0`), median, and proportion of lengths below the short
threshold (`0` when the threshold is not positive). The count of lengths
`≤ seuil` is taken on the integer list (equivalent to numpy's comparison of
the float array). -/
noncomputable def resumerLongueursSegments (longueurs : List ℤ)
    (seuil : ℤ) : Option ResumeLongueurs :=
  if longueurs = [] then none
  else
    let n : ℚ := longueurs.length
    let lms : ℚ := (longueurs.map (fun z => (z : ℚ))).sum / n
    let varianceP : ℚ :=
      ((longueurs.map (fun z => ((z : ℚ) - lms) ^ 2)).sum) / n
    let ecartType : ℝ := Real.sqrt ((varianceP : ℝ))
    let cv : ℝ := if lms = 0 then 0 else ecartType / ((lms : ℝ))
    let mediane : ℚ := npMedianQ (longueurs.map (fun z => (z : ℚ)))
    let prop : ℚ :=
      if seuil > 0 then
        (((longueurs.filter (fun z => z ≤ seuil)).length : ℚ)) / n
      else 0
    some ⟨lms, ecartType, cv, mediane, prop⟩

/-- Stated from the spec's words for claim C4: the mean of the lengths. -/
def moyenneSpec (longueurs : List ℤ) : ℚ :=
  (longueurs.map (fun z => (z : ℚ))).sum / longueurs.length

/-- Stated from the spec's words for claim C4: the population (ddof 0)
standard deviation of the lengths. -/
noncomputable def ecartTypePopulationSpec (longueurs : List ℤ) : ℝ :=
  Real.sqrt
    ((((longueurs.map (fun z => ((z : ℚ) - moyenneSpec longueurs) ^ 2)).sum /
        longueurs.length : ℚ) : ℝ))

/-- A raw sample cell: `none` models both Python `None` and `NaN` (the values
removed by the `v is not None and not np.isnan(v)` filters). -/
abbrev Echantillon := List (Option ℚ)

/-- The per-group NaN/None filter used by every test function. -/
def valeursPropres (e : Echantillon) : List ℚ := e.filterMap id

/-- Strict lexicographic comparison of Python strings (by code point). -/
def strLtB : List Char → List Char → Bool
  | [], [] => false
  | [], _ :: _ => true
  | _ :: _, [] => false
  | a :: as, b :: bs =>
      if a.val < b.val then true
      else if b.val < a.val then false
      else strLtB as bs

/-- Python string `<=` (by code point). -/
def strLeB (a b : List Char) : Bool := !strLtB b a

/-- Grouped data: an association list from modality label to raw sample. -/
abbrev DonneesParModalite := List (List Char × Echantillon)

/-- `sorted(donnees_par_modalite)`: the modality labels in ascending
lexicographic order. -/
def sortedModalites (donnees : DonneesParModalite) : List (List Char) :=
  List.insertionSort (fun a b => strLeB a b = true) (donnees.map Prod.fst)

/-- The raw sample of one modality (`donnees_par_modalite[modalite]`). -/
def echantillonDe (donnees : DonneesParModalite)
    (modalite : List Char) : Echantillon :=
  (donnees.lookup modalite).getD []

/-- The NaN-filtered, non-empty samples, in sorted modality order — the lists
actually handed to `f_oneway`/`kruskal`. -/
def groupesFiltres (donnees : DonneesParModalite) : List (List ℚ) :=
  ((sortedModalites donnees).map
      (fun m => valeursPropres (echantillonDe donnees m))).filter
    (fun e => !e.isEmpty)

/-- The total raw observation count over all groups, NaN cells included
(`sum(len(donnees_par_modalite[m]) for m in modalites)`). -/
def effectifBrut (donnees : DonneesParModalite) : Nat :=
  ((sortedModalites donnees).map
      (fun m => (echantillonDe donnees m).length)).sum

/-- Stated from the spec's words for claim C5: the total number of non-NaN
observations over all groups. -/
def effectifSansNan (donnees : DonneesParModalite) : Nat :=
  (donnees.map (fun g => (valeursPropres g.2).length)).sum

/-- `anova.ResultatAnova`. -/
structure ResultatAnova where
  statistique : ℚ
  p_value : ℚ
  ddl_inter : ℤ
  ddl_intra : ℤ
  effectif_total : Nat
  nb_groupes : Nat
deriving DecidableEq

/-- `anova.effectuer_test_anova`, parameterized by the `scipy.stats.f_oneway`
call (statistic, p-value), which is not part of this repository. -/
def effectuerTestAnova (fOneway : List (List ℚ) → ℚ × ℚ)
    (donnees : DonneesParModalite) : Option ResultatAnova :=
  let valeurs := groupesFiltres donnees
  if valeurs.length < 2 then none
  else
    let resultat := fOneway valeurs
    let effectifTotal := effectifBrut donnees
    let nbGroupes := valeurs.length
    some ⟨resultat.1, resultat.2, (nbGroupes : ℤ) - 1,
      (effectifTotal : ℤ) - (nbGroupes : ℤ), effectifTotal, nbGroupes⟩

/-- `kruskal.ResultatKruskal`. -/
structure ResultatKruskal where
  statistique : ℚ
  p_value : ℚ
  effectif_total : Nat
deriving DecidableEq

/-- `kruskal.effectuer_test_kruskal`, parameterized by the
`scipy.stats.kruskal` call. -/
def effectuerTestKruskal (kruskalStat : List (List ℚ) → ℚ × ℚ)
    (donnees : DonneesParModalite) : Option ResultatKruskal :=
  let valeurs := groupesFiltres donnees
  if valeurs.length < 2 then none
  else
    let resultat := kruskalStat valeurs
    some ⟨resultat.1, resultat.2, effectifBrut donnees⟩

/-- `mann_whitney.ResultatMannWhitney`. -/
structure ResultatMannWhitney where
  statistique : ℚ
  p_value : ℚ
  n_a : Nat
  n_b : Nat
deriving DecidableEq

/-- `mann_whitney.effectuer_test_mann_whitney`, parameterized by the
`scipy.stats.mannwhitneyu` call (two-sided). -/
def effectuerTestMannWhitney (mwu : List ℚ → List ℚ → ℚ × ℚ)
    (valeursA valeursB : Echantillon) : Option ResultatMannWhitney :=
  let propresA := valeursPropres valeursA
  let propresB := valeursPropres valeursB
  if propresA.length = 0 ∨ propresB.length = 0 then none
  else
    some ⟨(mwu propresA propresB).1, (mwu propresA propresB).2,
      propresA.length, propresB.length⟩

/-- Python `dict` assignment on an insertion-ordered association list:
update the value in place if the key exists, else append. -/
def dictInsert : List (List Char × List Char) → List Char → List Char →
    List (List Char × List Char)
  | [], k, v => [(k, v)]
  | (k0, v0) :: rest, k, v =>
      if k0 = k then (k0, v) :: rest
      else (k0, v0) :: dictInsert rest k v

/-- `analyses.load_connectors` applied to an already-decoded JSON object
(an insertion-ordered key/value list): keys are trimmed of spaces and tabs
only, blank keys are dropped, and both newline spellings are stored under the
canonical `"\n"` key. -/
def loadConnectors (payload : List (List Char × List Char)) :
    List (List Char × List Char) :=
  payload.foldl
    (fun acc kv =>
      let strippedKey := pyStripSpaceTab kv.1
      if strippedKey = [] then acc
      else if strippedKey = chars "\n" ∨ strippedKey = chars "\r\n" then
        dictInsert acc (chars "\n") kv.2
      else dictInsert acc strippedKey kv.2)
    []

/-- One per-response indicator row of the paired (Friedman) pipeline:
block label (prompt), condition label (model) and indicator value. -/
structure LigneIndicateur where
  bloc : List Char
  modele : List Char
  valeur : ℚ
deriving DecidableEq

/-- The aggregation used when several responses share a (block, condition)
cell: `np.mean` or `np.median`. -/
inductive MethodeAgregation where
  | moyenne : MethodeAgregation
  | mediane : MethodeAgregation
deriving DecidableEq

/-- Mean of a list of rationals. -/
def moyenneQ (l : List ℚ) : ℚ := l.sum / l.length

/-- Apply the chosen aggregation. -/
def agreger : MethodeAgregation → List ℚ → ℚ
  | .moyenne => moyenneQ
  | .mediane => npMedianQ

/-- Sorted unique labels (the index/columns produced by
`groupby(...).unstack(...).sort_index()`). -/
def sortedUniqueStrs (l : List (List Char)) : List (List Char) :=
  (List.insertionSort (fun a b => strLeB a b = true) l).dedup

/-- One cell of the paired table: the aggregated indicator of the responses
with the given block and condition, or `none` (NaN) if there is no response. -/
def valeursCellule (rows : List LigneIndicateur) (b m : List Char) :
    List ℚ :=
  (rows.filter (fun r => r.bloc == b && r.modele == m)).map
    (fun r => r.valeur)

/-- See `valeursCellule`: the aggregated cell, `none` (NaN) when empty. -/
def celluleTableau (rows : List LigneIndicateur) (meth : MethodeAgregation)
    (b m : List Char) : Option ℚ :=
  if (valeursCellule rows b m).isEmpty then none
  else some (agreger meth (valeursCellule rows b m))

/-- The complete paired table kept for testing: the condition labels and the
complete rows (block, one value per condition). -/
structure TableauApparie where
  modeles : List (List Char)
  lignes : List (List Char × List ℚ)
deriving DecidableEq

/-- The sorted unique block labels (`prompts_initiaux`). -/
def blocsInitiaux (rows : List LigneIndicateur) : List (List Char) :=
  sortedUniqueStrs (rows.map (fun r => r.bloc))

/-- The sorted unique condition labels (the pivot's columns). -/
def modelesTableau (rows : List LigneIndicateur) : List (List Char) :=
  sortedUniqueStrs (rows.map (fun r => r.modele))

/-- The pivoted table (`unstack`): one row per block, one optional cell per
condition. -/
def lignesPivot (meth : MethodeAgregation) (rows : List LigneIndicateur) :
    List (List Char × List (Option ℚ)) :=
  (blocsInitiaux rows).map
    (fun b => (b, (modelesTableau rows).map
      (fun m => celluleTableau rows meth b m)))

/-- The rows kept by `dropna(axis=0, how="any")`: no missing cell. -/
def lignesCompletes (meth : MethodeAgregation)
    (rows : List LigneIndicateur) : List (List Char × List (Option ℚ)) :=
  (lignesPivot meth rows).filter (fun r => r.2.all (fun c => c.isSome))

/-- `friedeman.construire_tableau_apparie`: pivot the indicator rows into a
blocks × conditions table, drop every row with a missing cell, and return
(complete table, initial block list, excluded block list). -/
def construireTableauApparie (meth : MethodeAgregation)
    (rows : List LigneIndicateur) :
    TableauApparie × List (List Char) × List (List Char) :=
  if rows.isEmpty then (⟨[], []⟩, [], [])
  else
    (⟨modelesTableau rows,
        (lignesCompletes meth rows).map
          (fun r => (r.1, r.2.map (fun c => c.getD 0)))⟩,
      blocsInitiaux rows,
      (blocsInitiaux rows).filter
        (fun b => !((lignesCompletes meth rows).any (fun r => r.1 == b))))

/-- `friedeman.ResultatFriedman` (the dict returned by
`calculer_statistique_friedman`). -/
structure ResultatFriedman where
  statistique : ℚ
  p_value : ℚ
  n_prompts : Nat
  k_modeles : Nat
  kendall_w : ℚ
deriving DecidableEq

/-- The columns of the paired table, as handed to `friedmanchisquare`. -/
def colonnesTableau (t : TableauApparie) : List (List ℚ) :=
  (List.range t.modeles.length).map
    (fun j => t.lignes.map (fun r => r.2.getD j 0))

/-- `friedeman.calculer_statistique_friedman`, parameterized by the
`scipy.stats.friedmanchisquare` call: `None` below 2 complete blocks or 2
conditions, otherwise the statistic, p-value and Kendall's W. The inner
guard cannot fail after the size check (Python would yield `np.nan` there). -/
def calculerStatistiqueFriedman (fried : List (List ℚ) → ℚ × ℚ)
    (t : TableauApparie) : Option ResultatFriedman :=
  if t.lignes.length < 2 ∨ t.modeles.length < 2 then none
  else
    some ⟨(fried (colonnesTableau t)).1, (fried (colonnesTableau t)).2,
      t.lignes.length, t.modeles.length,
      if 0 < t.lignes.length ∧ 1 < t.modeles.length then
        (fried (colonnesTableau t)).1 /
          ((t.lignes.length : ℚ) * ((t.modeles.length : ℚ) - 1))
      else 0⟩

/-- All unordered pairs of modalities, in `itertools.combinations` order. -/
def pairesModalites : List (List Char) → List (List Char × List Char)
  | [] => []
  | m :: rest => rest.map (fun x => (m, x)) ++ pairesModalites rest

/-- One row of `anova.tests_post_hoc_ttest` (the `p_ajustee` column starts
equal to `p_brute` and is overwritten when a correction is applied). -/
structure LignePostHocT where
  modalite_a : List Char
  modalite_b : List Char
  statistique : ℚ
  p_brute : ℚ
  n_a : Nat
  n_b : Nat
  p_ajustee : ℚ
deriving DecidableEq

/-- The raw pairwise t-test rows: every pair with at least 2 non-NaN values
on each side, in pair-enumeration order (`ttest` abstracts
`scipy.stats.ttest_ind`, Welch or pooled according to the caller's flag). -/
def lignesTtest (ttest : List ℚ → List ℚ → ℚ × ℚ)
    (donnees : DonneesParModalite) : List LignePostHocT :=
  (pairesModalites (sortedModalites donnees)).filterMap
    (fun p =>
      let va := valeursPropres (echantillonDe donnees p.1)
      let vb := valeursPropres (echantillonDe donnees p.2)
      if va.length < 2 ∨ vb.length < 2 then none
      else
        let res := ttest va vb
        some ⟨p.1, p.2, res.1, res.2, va.length, vb.length, res.2⟩)

/-- Write the adjusted p-values column into the rows, in order (correction
functions are length-preserving, as `multipletests` is). -/
def affecterAjusteesT : List LignePostHocT → List ℚ → List LignePostHocT
  | [], _ => []
  | r :: rs, ps =>
      { r with p_ajustee := (ps.headD r.p_brute) } ::
        affecterAjusteesT rs ps.tail

/-- `anova.tests_post_hoc_ttest`, parameterized by the t-test call and the
optional `multipletests` correction: build the pairwise rows, fill the
`p_ajustee` column (raw p-values when no correction), and sort ascending by
`p_ajustee`. -/
def testsPostHocTtest (ttest : List ℚ → List ℚ → ℚ × ℚ)
    (correction : Option (List ℚ → List ℚ))
    (donnees : DonneesParModalite) : List LignePostHocT :=
  let lignes := lignesTtest ttest donnees
  if lignes.isEmpty then []
  else
    let ajustees :=
      match correction with
      | some corr => corr (lignes.map (fun r => r.p_brute))
      | none => lignes.map (fun r => r.p_brute)
    List.insertionSort
      (fun x y : LignePostHocT => x.p_ajustee ≤ y.p_ajustee)
      (affecterAjusteesT lignes ajustees)

/-- One row of `mann_whitney.comparaisons_post_hoc`. -/
structure LignePostHocMW where
  modalite_a : List Char
  modalite_b : List Char
  statistique : ℚ
  p_brute : ℚ
  n_a : Nat
  n_b : Nat
  p_ajustee : ℚ
  rejette : Bool
deriving DecidableEq

/-- The raw pairwise Mann-Whitney rows, in pair-enumeration order; pairs on
which the test returns `None` are skipped. -/
def lignesMannWhitney (mwu : List ℚ → List ℚ → ℚ × ℚ)
    (donnees : DonneesParModalite) : List LignePostHocMW :=
  (pairesModalites (sortedModalites donnees)).filterMap
    (fun p =>
      match effectuerTestMannWhitney mwu (echantillonDe donnees p.1)
          (echantillonDe donnees p.2) with
      | none => none
      | some res =>
          some ⟨p.1, p.2, res.statistique, res.p_value, res.n_a, res.n_b,
            res.p_value, false⟩)

/-- Write the adjusted p-values and rejection flags into the rows, in order. -/
def affecterAjusteesMW :
    List LignePostHocMW → List ℚ → List Bool → List LignePostHocMW
  | [], _, _ => []
  | r :: rs, ps, bs =>
      { r with
          p_ajustee := (ps.headD r.p_brute)
          rejette := (bs.headD false) } ::
        affecterAjusteesMW rs ps.tail bs.tail

/-- `mann_whitney.comparaisons_post_hoc`, parameterized by the Mann-Whitney
call and the optional `multipletests` correction (adjusted p-values and
rejection flags): the rows are returned in pair-enumeration order, with no
sorting step. -/
def comparaisonsPostHoc (mwu : List ℚ → List ℚ → ℚ × ℚ)
    (correction : Option (List ℚ → List ℚ × List Bool))
    (donnees : DonneesParModalite) : List LignePostHocMW :=
  if (sortedModalites donnees).length < 2 then []
  else
    let lignes := lignesMannWhitney mwu donnees
    if lignes.isEmpty then []
    else
      match correction with
      | none =>
          affecterAjusteesMW lignes (lignes.map (fun r => r.p_brute))
            (List.replicate lignes.length false)
      | some corr =>
          let res := corr (lignes.map (fun r => r.p_brute))
          affecterAjusteesMW lignes res.1 res.2

/-- Null distribution of the Mann-Whitney U statistic (no ties):
`mwuNombreArrangements m n u` counts the arrangements of `m` x-values and `n`
y-values with exactly `u` (x, y) pairs in which x exceeds y; modelled from
the exact method of `scipy.stats.mannwhitneyu` (used for small samples
without ties), which is not part of this repository. -/
def mwuRangee (prev : Nat → Nat → Nat) : Nat → Nat → Nat
  | 0, u => if u = 0 then 1 else 0
  | n + 1, u =>
      (if n + 1 ≤ u then prev (n + 1) (u - (n + 1)) else 0) +
        mwuRangee prev n u

/-- See `mwuRangee`: recursion over the number of x-values. -/
def mwuNombreArrangements : Nat → Nat → Nat → Nat
  | 0 => fun _ u => if u = 0 then 1 else 0
  | m + 1 => mwuRangee (mwuNombreArrangements m)

/-- `P(U ≥ u)` under the exact null distribution. -/
def mwuProbGE (m n u : Nat) : ℚ :=
  ((((List.range (m * n + 1)).filter (fun v => u ≤ v)).map
      (fun v => mwuNombreArrangements m n v)).sum : ℚ) /
    (((m + n).choose m : ℚ))

/-- The U1 statistic of sample `x` against sample `y` (no ties). -/
def u1Statistique (x y : List ℚ) : Nat :=
  (x.map (fun a => (y.filter (fun b => b < a)).length)).sum

/-- Two-sided exact Mann-Whitney test
(`scipy.stats.mannwhitneyu(x, y, alternative="two-sided")` in its exact
branch, selected for small samples without ties): the U1 statistic and
`min(1, 2·P(U ≥ max(U1, U2)))`. -/
def exactMannWhitney (x y : List ℚ) : ℚ × ℚ :=
  let u1 := u1Statistique x y
  let u2 := x.length * y.length - u1
  ((u1 : ℚ), min 1 (2 * mwuProbGE x.length y.length (max u1 u2)))

/-- Ordering rows by adjusted p-value is total. -/
instance : IsTotal LignePostHocT
    (fun x y : LignePostHocT => x.p_ajustee ≤ y.p_ajustee) :=
  ⟨fun a b => le_total a.p_ajustee b.p_ajustee⟩

/-- Ordering rows by adjusted p-value is transitive. -/
instance : IsTrans LignePostHocT
    (fun x y : LignePostHocT => x.p_ajustee ≤ y.p_ajustee) :=
  ⟨fun _ _ _ hab hbc => le_trans hab hbc⟩

/-- Three modalities whose pairwise exact Mann-Whitney p-values come out in
the order `[1, 1/3, 1/3]`. -/
def donneesTrioDemo : DonneesParModalite :=
  [(chars "a", [some 1, some 4]), (chars "b", [some 2, some 3]),
    (chars "c", [some 5, some 6])]

/-- Three indicator rows in which block `p2` misses condition `m2`. -/
def lignesFriedmanDemo : List LigneIndicateur :=
  [⟨chars "p1", chars "m1", 1⟩, ⟨chars "p1", chars "m2", 2⟩,
    ⟨chars "p2", chars "m1", 3⟩]

/-- The key/value fold of `import._validate_connectors_payload` applied to an
already-decoded JSON object of strings (an insertion-ordered key/value list):
keys are trimmed of spaces and tabs only, keys blank after trimming are
dropped, and values are stripped (kept raw when blank after stripping).
Unlike `analyses.load_connectors`, there is no newline canonicalization. -/
def validateConnectorsDict (payload : List (List Char × List Char)) :
    List (List Char × List Char) :=
  payload.foldl
    (fun acc kv =>
      if pyStripSpaceTab kv.1 = [] then acc
      else
        dictInsert acc (pyStripSpaceTab kv.1)
          (if pyStrip kv.2 = [] then kv.2 else pyStrip kv.2))
    []

/-- `import._validate_connectors_payload`: the processed dictionary, or
`none` for the `ValueError` raised when no valid connector remains. -/
def validateConnectorsPayload (payload : List (List Char × List Char)) :
    Option (List (List Char × List Char)) :=
  if validateConnectorsDict payload = [] then none
  else some (validateConnectorsDict payload)

/-! ### Theorems -/

/-- Every triple produced by `segmentsLoop` has a genuine connector on at
least one side, and a trailing triple (no following boundary) always has a
genuine connector before it. -/
theorem segmentsLoop_boundary_invariant (keys : List (List Char))
    (text : List Char) :
    ∀ (ms : List (Nat × Nat)) (lastEnd : Nat) (prev : Option (List Char))
      (seg : List Char) (p n : Option (List Char)),
      (seg, p, n) ∈ segmentsLoop keys text ms lastEnd prev →
      (isConnecteur keys p || isConnecteur keys n) = true ∧
        (n = none → isConnecteur keys p = true) := by
  intro ms
  induction ms with
  | nil =>
      intro lastEnd prev seg p n h
      simp only [segmentsLoop] at h
      split at h
      next hcond =>
        simp only [Bool.and_eq_true] at hcond
        have h' : seg = text.drop lastEnd ∧ p = prev ∧ n = none := by
          simpa using h
        obtain ⟨-, rfl, rfl⟩ := h'
        exact ⟨by simp [hcond.2], fun _ => hcond.2⟩
      next => simp at h
  | cons m ms ih =>
      intro lastEnd prev seg p n h
      obtain ⟨s, l⟩ := m
      simp only [segmentsLoop] at h
      split at h
      next hcond =>
        simp only [Bool.and_eq_true] at hcond
        rcases List.mem_cons.mp h with hhead | htail
        · have h' : seg = slice text lastEnd s ∧ p = prev ∧
              n = some (slice text s (s + l)) := by
            simpa using hhead
          obtain ⟨-, rfl, rfl⟩ := h'
          refine ⟨by simpa using hcond.2, ?_⟩
          intro habs
          simp at habs
        · exact ih (s + l) (some (slice text s (s + l))) seg p n htail
      next => exact ih (s + l) (some (slice text s (s + l))) seg p n h

/-- C2: every segment returned by `_segments_with_boundaries` has at least one
adjacent boundary that is a genuine connector (never two pure-punctuation
boundaries), and trailing text after the last boundary is kept only when that
boundary is a genuine connector. -/
theorem segments_touch_connector (keys : List (List Char)) (punct : Bool)
    (text seg : List Char) (p n : Option (List Char))
    (h : (seg, p, n) ∈ segmentsWithBoundaries keys punct text) :
    (isConnecteur keys p || isConnecteur keys n) = true ∧
      (n = none → isConnecteur keys p = true) :=
  segmentsLoop_boundary_invariant keys text _ 0 none seg p n h

/-- Witness for C2 on the text `"a si b"` with the single connector `si` in
punctuation mode: the trailing segment `" b"` follows the connector `si`. -/
theorem segments_touch_connector_witness :
    (chars " b", some (chars "si"), (none : Option (List Char))) ∈
        segmentsWithBoundaries [chars "si"] true (chars "a si b") ∧
      isConnecteur [chars "si"] (some (chars "si")) = true :=
  ⟨by decide,
    (segments_touch_connector [chars "si"] true (chars "a si b") (chars " b")
        (some (chars "si")) none (by decide)).2 rfl⟩

/-- C1 counterexample: with connectors `{si}` and the text `" bonjour "`
(no connector occurrence), `split_segments_by_connectors` in
`connecteurs_et_ponctuation` mode returns the text untrimmed, which differs
from the trimmed input the claim announces. -/
theorem split_no_connector_not_trimmed :
    splitSegmentsByConnectors (chars " bonjour ")
        [(chars "si", chars "condition")] .connecteursEtPonctuation =
      [chars " bonjour "] ∧
      chars " bonjour " ≠ pyStrip (chars " bonjour ") := by
  constructor
  · decide
  · decide

/-- C1 amended: whenever the dictionary has at least one non-empty key, the
text is non-empty and the connector pattern finds no match in the
metadata-cleaned text, `split_segments_by_connectors` returns exactly one
segment equal to the metadata-cleaned input text (not trimmed), in every
segmentation mode — punctuation alone never creates boundaries. -/
theorem split_no_connector_whole_text (text : List Char)
    (connectors : Connectors) (mode : SegmentationMode)
    (h1 : text ≠ [])
    (h2 : sortedConnectorKeys connectors ≠ [])
    (h3 : connectorSearch (sortedConnectorKeys connectors)
        (removeMetadataLines text) = false) :
    splitSegmentsByConnectors text connectors mode =
      [removeMetadataLines text] := by
  unfold splitSegmentsByConnectors
  have h1' : text.isEmpty = false := by
    cases text with
    | nil => exact absurd rfl h1
    | cons c t => rfl
  have h2' : (sortedConnectorKeys connectors).isEmpty = false := by
    cases hk : sortedConnectorKeys connectors with
    | nil => exact absurd hk h2
    | cons k ks => rfl
  simp [h1', h2', h3]

/-- Witness for the amended C1 at the text `"bonjour"` and dictionary
`{si : condition}`. -/
theorem split_no_connector_whole_text_witness :
    connectorSearch (sortedConnectorKeys [(chars "si", chars "condition")])
        (removeMetadataLines (chars "bonjour")) = false ∧
      splitSegmentsByConnectors (chars "bonjour")
          [(chars "si", chars "condition")] .connecteursEtPonctuation =
        [removeMetadataLines (chars "bonjour")] :=
  ⟨by decide,
    split_no_connector_whole_text (chars "bonjour")
      [(chars "si", chars "condition")] .connecteursEtPonctuation
      (by decide) (by decide) (by decide)⟩

/-- C3 counterexample: the key `"si,"` contains a word character, so the
segmentation engine wraps it in word-boundary anchors even though its last
character is not alphanumeric — the claimed equivalence fails. -/
theorem wrap_connector_not_both_ends_rule :
    ¬ (wrapConnectorRegex (chars "si,") = RegexForm.borne (chars "si,") ↔
        bothEndsAlnum (chars "si,") = true) := by
  decide

/-- C3 amended: the segmentation engine (`hash.py`) wraps a key in
word-boundary anchors iff the key contains at least one word character, while
the annotation module (`analyses.py`) wraps iff the first and last characters
are alphanumeric; the newline key is wrapped by neither (it is matched
literally, as `\r?\n` in the annotation module). -/
theorem wrap_connector_rules (key : List Char) :
    (wrapConnectorRegex key = RegexForm.borne key ↔
        key.any isWordChar = true) ∧
      (connectorToRegex key = RegexForm.borne key ↔
        bothEndsAlnum key = true) ∧
      wrapConnectorRegex (chars "\n") = RegexForm.litteral (chars "\n") ∧
      connectorToRegex (chars "\n") = RegexForm.newlineAlt := by
  refine ⟨?_, ?_, by decide, by decide⟩
  · by_cases h : key.any isWordChar = true
    · simp [wrapConnectorRegex, h]
    · rw [Bool.not_eq_true] at h
      simp [wrapConnectorRegex, h]
  · by_cases h0 : key.isEmpty = true
    · have : key = [] := by simpa using h0
      subst this
      decide
    · by_cases h1 : key = chars "\n"
      · subst h1
        decide
      · have h0' : key.isEmpty = false := by
          simpa using h0
        have h1' : (key == chars "\n") = false := by
          simpa using h1
        by_cases h2 :
            ((key.headD ' ').isAlphanum && (key.getLastD ' ').isAlphanum)
              = true
        · simp [connectorToRegex, bothEndsAlnum, h0', h1', h2]
        · rw [Bool.not_eq_true] at h2
          simp [connectorToRegex, bothEndsAlnum, h0', h1', h2]

/-- Witness for the amended C3 at the keys `"si"` and `"\n"`. -/
theorem wrap_connector_rules_witness :
    (wrapConnectorRegex (chars "si") = RegexForm.borne (chars "si") ↔
        (chars "si").any isWordChar = true) ∧
      (connectorToRegex (chars "si") = RegexForm.borne (chars "si") ↔
        bothEndsAlnum (chars "si") = true) :=
  ⟨(wrap_connector_rules (chars "si")).1,
    (wrap_connector_rules (chars "si")).2.1⟩


/-- C4: `resumer_longueurs_segments` returns `None` exactly on the empty
list; otherwise the coefficient of variation equals the population (ddof 0)
standard deviation divided by the mean (`0` when the mean is `0`), and the
short-segment proportion equals the fraction of lengths `≤ seuil` (`0` when
the threshold is `≤ 0`). -/
theorem resumer_contract (longueurs : List ℤ) (seuil : ℤ) :
    (resumerLongueursSegments longueurs seuil = none ↔ longueurs = []) ∧
      ∀ r, resumerLongueursSegments longueurs seuil = some r →
        r.coefficient_variation =
            (if moyenneSpec longueurs = 0 then 0
             else ecartTypePopulationSpec longueurs /
               ((moyenneSpec longueurs : ℚ) : ℝ)) ∧
          r.proportion_courts =
            (if seuil ≤ 0 then 0
             else ((longueurs.filter (fun z => z ≤ seuil)).length : ℚ) /
               (longueurs.length : ℚ)) := by
  constructor
  · unfold resumerLongueursSegments
    by_cases h : longueurs = []
    · simp [h]
    · simp [h]
  · intro r hr
    by_cases h : longueurs = []
    · rw [h] at hr
      simp [resumerLongueursSegments] at hr
    · unfold resumerLongueursSegments at hr
      rw [if_neg h] at hr
      have hr' := Option.some.inj hr
      subst hr'
      refine ⟨?_, ?_⟩
      · rfl
      · by_cases hs : seuil ≤ 0
        · have hs' : ¬ seuil > 0 := by omega
          simp only [if_neg hs', if_pos hs]
        · have hs' : seuil > 0 := by omega
          simp only [if_pos hs', if_neg hs]

/-- Witness for C4 at the empty list and the length list `[5]`. -/
theorem resumer_contract_witness :
    resumerLongueursSegments ([] : List ℤ) 10 = none ∧
      resumerLongueursSegments [5] 10 = some ⟨5, 0, 0, 5, 1⟩ ∧
      (0 : ℝ) =
        (if moyenneSpec [5] = 0 then 0
         else ecartTypePopulationSpec [5] / ((moyenneSpec [5] : ℚ) : ℝ)) := by
  have h0 := (resumer_contract [] 10).1.mpr rfl
  have hsome : resumerLongueursSegments [5] 10 = some ⟨5, 0, 0, 5, 1⟩ := by
    unfold resumerLongueursSegments
    norm_num [npMedianQ, List.insertionSort]
  have h1 := (resumer_contract [5] 10).2 ⟨5, 0, 0, 5, 1⟩ hsome
  exact ⟨h0, hsome, h1.1⟩

/-- Every recorded segment length is at least `1` (only segments with at
least one token contribute). -/
theorem computeSegmentWordLengths_pos (tok : List Char → List (List Char))
    (text : List Char) (connectors : Connectors) (mode : SegmentationMode) :
    ∀ n ∈ computeSegmentWordLengths tok text connectors mode, 1 ≤ n := by
  intro n hn
  unfold computeSegmentWordLengths at hn
  obtain ⟨segment, hseg, hmap⟩ := List.mem_filterMap.mp hn
  by_cases hemp : (tok segment).isEmpty = true
  · simp [hemp] at hmap
  · rw [if_neg hemp] at hmap
    have hlen : (tok segment).length = n := by
      simpa using hmap
    have : tok segment ≠ [] := by
      intro habs
      rw [habs] at hemp
      exact hemp rfl
    have : 0 < (tok segment).length := List.length_pos.mpr this
    omega

/-- The sum of a non-empty list of positive naturals is positive (in `ℚ`). -/
theorem sum_cast_pos (l : List Nat) (h1 : l ≠ [])
    (h2 : ∀ n ∈ l, 1 ≤ n) :
    0 < ((l.map (fun n : Nat => (n : ℚ))).sum) := by
  induction l with
  | nil => exact absurd rfl h1
  | cons a t ih =>
      simp only [List.map_cons, List.sum_cons]
      have ha : 1 ≤ a := h2 a (by simp)
      have ha' : (0 : ℚ) < a := by exact_mod_cast ha
      cases t with
      | nil => simpa using ha'
      | cons b t' =>
          have ht := ih (by simp) (fun n hn => h2 n (by simp [hn]))
          linarith

/-- C10: the LMS is the float `0.0` — never `None`, never an exception —
exactly when no segment has at least one token, in particular for empty text
and for a dictionary without a non-empty key; the per-response summarizer
signals the same absence with `None` instead. -/
theorem average_length_zero_iff (tok : List Char → List (List Char))
    (text : List Char) (connectors : Connectors) (mode : SegmentationMode) :
    (averageSegmentLength tok text connectors mode = 0 ↔
        computeSegmentWordLengths tok text connectors mode = []) ∧
      (text = [] → computeSegmentWordLengths tok text connectors mode = []) ∧
      (sortedConnectorKeys connectors = [] →
        computeSegmentWordLengths tok text connectors mode = []) ∧
      (∀ seuil : ℤ, resumerLongueursSegments [] seuil = none) := by
  refine ⟨⟨?_, ?_⟩, ?_, ?_, ?_⟩
  · intro h
    by_contra hne
    have hpos :
        0 < ((computeSegmentWordLengths tok text connectors mode).map
            (fun n : Nat => (n : ℚ))).sum :=
      sum_cast_pos _ hne (computeSegmentWordLengths_pos tok text connectors mode)
    have hlenpos :
        (0 : ℚ) < (computeSegmentWordLengths tok text connectors mode).length := by
      have := List.length_pos.mpr hne
      exact_mod_cast this
    have hempty :
        (computeSegmentWordLengths tok text connectors mode).isEmpty = false := by
      cases hx : computeSegmentWordLengths tok text connectors mode with
      | nil => exact absurd hx hne
      | cons a t => rfl
    simp only [averageSegmentLength, hempty, Bool.false_eq_true,
      if_false] at h
    have := div_pos hpos hlenpos
    rw [h] at this
    exact lt_irrefl 0 this
  · intro h
    unfold averageSegmentLength
    simp [h]
  · intro h
    subst h
    simp [computeSegmentWordLengths, splitSegmentsByConnectors]
  · intro h
    unfold computeSegmentWordLengths splitSegmentsByConnectors
    by_cases ht : text.isEmpty = true
    · simp [ht]
    · have h' : (sortedConnectorKeys connectors).isEmpty = true := by
        simp [h]
      simp [ht, h']
  · intro seuil
    simp [resumerLongueursSegments]

/-- Witness for C10 at the empty text with the regex tokenizer. -/
theorem average_length_zero_iff_witness :
    computeSegmentWordLengths tokenizeRegex (chars "") [] .connecteurs = [] ∧
      averageSegmentLength tokenizeRegex (chars "") [] .connecteurs = 0 := by
  have h := average_length_zero_iff tokenizeRegex (chars "") [] .connecteurs
  have hempty := h.2.1 rfl
  exact ⟨hempty, h.1.mpr hempty⟩

/-- C5 counterexample: with a NaN cell in group `a`, the ANOVA result records
`effectif_total = 4` (raw cells) while the number of non-NaN observations is
`3`, and `ddl_intra = 2` rather than `3 - 2 = 1`. -/
theorem anova_effectif_counts_nan_cells :
    ((effectuerTestAnova (fun _ => (0, 0))
          [(chars "a", [some 1, none, some 2]), (chars "b", [some 3])]).map
        (fun r => r.effectif_total)) = some 4 ∧
      effectifSansNan
          [(chars "a", [some 1, none, some 2]), (chars "b", [some 3])] = 3 ∧
      ((effectuerTestAnova (fun _ => (0, 0))
          [(chars "a", [some 1, none, some 2]), (chars "b", [some 3])]).map
        (fun r => r.ddl_intra)) = some 2 ∧
      (4 : Nat) ≠ 3 := by
  refine ⟨by decide, by decide, by decide, by decide⟩

/-- C5 amended: NaN values are excluded per group before the test (the
statistic is computed on the filtered samples and `nb_groupes` counts the
groups non-empty after filtering), but `effectif_total` is the raw
observation count over all groups, NaN cells included, and
`ddl_intra = effectif_total - nb_groupes` uses that raw count. -/
theorem anova_effectifs_bruts (fOneway : List (List ℚ) → ℚ × ℚ)
    (donnees : DonneesParModalite) (r : ResultatAnova)
    (h : effectuerTestAnova fOneway donnees = some r) :
    r.effectif_total = effectifBrut donnees ∧
      r.nb_groupes = (groupesFiltres donnees).length ∧
      r.ddl_intra =
        (effectifBrut donnees : ℤ) - ((groupesFiltres donnees).length : ℤ) ∧
      (r.statistique, r.p_value) = fOneway (groupesFiltres donnees) := by
  unfold effectuerTestAnova at h
  by_cases hc : (groupesFiltres donnees).length < 2
  · simp [hc] at h
  · rw [if_neg hc] at h
    have h' := Option.some.inj h
    subst h'
    exact ⟨rfl, rfl, rfl, rfl⟩

/-- Witness for the amended C5 on two singleton groups. -/
theorem anova_effectifs_bruts_witness :
    effectuerTestAnova (fun _ => (0, 0))
        [(chars "a", [some 1]), (chars "b", [some 2])] =
      some ⟨0, 0, 1, 0, 2, 2⟩ ∧
      (2 : Nat) =
        effectifBrut [(chars "a", [some 1]), (chars "b", [some 2])] := by
  have hsome : effectuerTestAnova (fun _ => (0, 0))
      [(chars "a", [some 1]), (chars "b", [some 2])] =
        some ⟨0, 0, 1, 0, 2, 2⟩ := by decide
  have h := anova_effectifs_bruts (fun _ => (0, 0))
    [(chars "a", [some 1]), (chars "b", [some 2])] ⟨0, 0, 1, 0, 2, 2⟩ hsome
  exact ⟨hsome, h.1⟩

/-- C8: the omnibus tests return `None` exactly when fewer than two groups
remain non-empty after NaN removal, and Mann-Whitney returns `None` exactly
when one of the two samples is empty after NaN removal; being total
functions, they raise nothing. -/
theorem tests_none_iff_insufficient
    (fOneway kruskalStat : List (List ℚ) → ℚ × ℚ)
    (mwu : List ℚ → List ℚ → ℚ × ℚ)
    (donnees : DonneesParModalite) (valeursA valeursB : Echantillon) :
    (effectuerTestAnova fOneway donnees = none ↔
        (groupesFiltres donnees).length < 2) ∧
      (effectuerTestKruskal kruskalStat donnees = none ↔
        (groupesFiltres donnees).length < 2) ∧
      (effectuerTestMannWhitney mwu valeursA valeursB = none ↔
        (valeursPropres valeursA = [] ∨ valeursPropres valeursB = [])) := by
  refine ⟨?_, ?_, ?_⟩
  · unfold effectuerTestAnova
    by_cases hc : (groupesFiltres donnees).length < 2
    · simp [hc]
    · simp [hc]
  · unfold effectuerTestKruskal
    by_cases hc : (groupesFiltres donnees).length < 2
    · simp [hc]
    · simp [hc]
  · unfold effectuerTestMannWhitney
    by_cases hc : (valeursPropres valeursA).length = 0 ∨
        (valeursPropres valeursB).length = 0
    · simp only [if_pos hc]
      simp only [List.length_eq_zero] at hc
      simp [hc]
    · simp only [if_neg hc]
      simp only [List.length_eq_zero] at hc
      simp [hc]

/-- Membership in a dict after assignment: the key was present before, or it
is the assigned key. -/
theorem dictInsert_mem (d : List (List Char × List Char))
    (k v k0 v0 : List Char) (h : (k0, v0) ∈ dictInsert d k v) :
    (∃ w, (k0, w) ∈ d) ∨ k0 = k := by
  induction d with
  | nil =>
      simp only [dictInsert, List.mem_singleton, Prod.mk.injEq] at h
      exact Or.inr h.1
  | cons e rest ih =>
      obtain ⟨ke, ve⟩ := e
      simp only [dictInsert] at h
      by_cases he : ke = k
      · rw [if_pos he] at h
        rcases List.mem_cons.mp h with hh | ht
        · have : k0 = ke := by
            simpa using congrArg Prod.fst hh
          exact Or.inr (this.trans he)
        · exact Or.inl ⟨v0, List.mem_cons_of_mem _ ht⟩
      · rw [if_neg he] at h
        rcases List.mem_cons.mp h with hh | ht
        · obtain ⟨h1, h2⟩ := Prod.mk.injEq .. ▸ hh
          exact Or.inl ⟨ve, by simp [h1]⟩
        · rcases ih ht with ⟨w, hw⟩ | hk
          · exact Or.inl ⟨w, List.mem_cons_of_mem _ hw⟩
          · exact Or.inr hk

/-- Invariant of the `load_connectors` fold: every stored key satisfies `P`
provided `P` holds for the canonical newline key and for every non-blank,
non-newline stripped key. -/
theorem loadConnectors_fold_invariant (P : List Char → Prop)
    (hP1 : P (chars "\n"))
    (hP2 : ∀ s : List Char, pyStripSpaceTab s ≠ [] →
      ¬(pyStripSpaceTab s = chars "\n" ∨ pyStripSpaceTab s = chars "\r\n") →
      P (pyStripSpaceTab s)) :
    ∀ (payload : List (List Char × List Char))
      (acc : List (List Char × List Char)),
      (∀ k v, (k, v) ∈ acc → P k) →
      ∀ k v,
        (k, v) ∈ payload.foldl
          (fun acc kv =>
            let strippedKey := pyStripSpaceTab kv.1
            if strippedKey = [] then acc
            else if strippedKey = chars "\n" ∨ strippedKey = chars "\r\n" then
              dictInsert acc (chars "\n") kv.2
            else dictInsert acc strippedKey kv.2)
          acc →
        P k := by
  intro payload
  induction payload with
  | nil =>
      intro acc hacc k v h
      exact hacc k v h
  | cons kv rest ih =>
      intro acc hacc k v h
      simp only [List.foldl_cons] at h
      refine ih _ ?_ k v h
      intro k' v' h'
      by_cases h0 : pyStripSpaceTab kv.1 = []
      · rw [if_pos h0] at h'
        exact hacc k' v' h'
      · rw [if_neg h0] at h'
        by_cases h1 : pyStripSpaceTab kv.1 = chars "\n" ∨
            pyStripSpaceTab kv.1 = chars "\r\n"
        · rw [if_pos h1] at h'
          rcases dictInsert_mem _ _ _ _ _ h' with ⟨w, hw⟩ | hk
          · exact hacc k' w hw
          · rw [hk]; exact hP1
        · rw [if_neg h1] at h'
          rcases dictInsert_mem _ _ _ _ _ h' with ⟨w, hw⟩ | hk
          · exact hacc k' w hw
          · rw [hk]; exact hP2 kv.1 h0 h1

/-- C9: loading the dictionary of the claim yields exactly
`{si : CONDITION, "\n" : X}`, and in general every stored key is non-blank,
never the `"\r\n"` spelling, and is either the canonical newline key or the
space/tab-trimmed form of an input key. -/
theorem load_connectors_canonical :
    loadConnectors [(chars " si", chars "CONDITION"), (chars "\n", chars "X"),
          (chars "\r\n", chars "X"), (chars "", chars "IGNORED")] =
        [(chars "si", chars "CONDITION"), (chars "\n", chars "X")] ∧
      ∀ payload k v, (k, v) ∈ loadConnectors payload →
        k ≠ [] ∧ k ≠ chars "\r\n" ∧
          (k = chars "\n" ∨ ∃ s, k = pyStripSpaceTab s) := by
  constructor
  · decide
  · intro payload k v h
    unfold loadConnectors at h
    refine loadConnectors_fold_invariant
      (fun k => k ≠ [] ∧ k ≠ chars "\r\n" ∧
        (k = chars "\n" ∨ ∃ s, k = pyStripSpaceTab s))
      ⟨by decide, by decide, Or.inl rfl⟩
      (fun s hs1 hs2 => ⟨hs1, fun habs => hs2 (Or.inr habs),
        Or.inr ⟨s, rfl⟩⟩)
      payload [] (by simp) k v h

/-- Witness for C9 at the loaded key `"si"` of the claim's dictionary. -/
theorem load_connectors_canonical_witness :
    (chars "si", chars "CONDITION") ∈
        loadConnectors [(chars " si", chars "CONDITION"),
          (chars "\n", chars "X"), (chars "\r\n", chars "X"),
          (chars "", chars "IGNORED")] ∧
      chars "si" ≠ chars "\r\n" :=
  ⟨by decide,
    (load_connectors_canonical.2
        [(chars " si", chars "CONDITION"), (chars "\n", chars "X"),
          (chars "\r\n", chars "X"), (chars "", chars "IGNORED")]
        (chars "si") (chars "CONDITION") (by decide)).2.1⟩

/-- Filling the adjusted-p column does not reorder or relabel the rows. -/
theorem affecterAjusteesMW_map_paires (lignes : List LignePostHocMW) :
    ∀ ps bs,
      (affecterAjusteesMW lignes ps bs).map
          (fun r => (r.modalite_a, r.modalite_b)) =
        lignes.map (fun r => (r.modalite_a, r.modalite_b)) := by
  induction lignes with
  | nil => intro ps bs; rfl
  | cons r rs ih =>
      intro ps bs
      simp only [affecterAjusteesMW, List.map_cons, ih]

/-- The raw Mann-Whitney rows are labelled by exactly the pairs on which the
test returns a result, in pair-enumeration order. -/
theorem lignesMannWhitney_map_paires (mwu : List ℚ → List ℚ → ℚ × ℚ)
    (donnees : DonneesParModalite) :
    (lignesMannWhitney mwu donnees).map
        (fun r => (r.modalite_a, r.modalite_b)) =
      (pairesModalites (sortedModalites donnees)).filter
        (fun p =>
          !(effectuerTestMannWhitney mwu (echantillonDe donnees p.1)
              (echantillonDe donnees p.2)).isNone) := by
  unfold lignesMannWhitney
  induction pairesModalites (sortedModalites donnees) with
  | nil => rfl
  | cons p ps ih =>
      simp only [List.filterMap_cons, List.filter_cons]
      cases hp : effectuerTestMannWhitney mwu (echantillonDe donnees p.1)
          (echantillonDe donnees p.2) with
      | none => simpa [hp] using ih
      | some res => simpa [hp] using ih

/-- Fewer than two modalities leave nothing to pair. -/
theorem pairesModalites_of_short (l : List (List Char))
    (h : l.length < 2) : pairesModalites l = [] := by
  cases l with
  | nil => rfl
  | cons a t =>
      cases t with
      | nil => rfl
      | cons b t' =>
          simp only [List.length_cons] at h
          omega

/-- C7 counterexample: on three modalities with samples `{1,4}`, `{2,3}`,
`{5,6}` and no correction, the Mann-Whitney post-hoc rows carry the effective
p-values `[1, 1/3, 1/3]`, which are not in ascending order. -/
theorem posthoc_mw_rows_unsorted :
    (comparaisonsPostHoc exactMannWhitney none donneesTrioDemo).map
        (fun r => r.p_ajustee) = [1, 1/3, 1/3] ∧
      ¬ List.Sorted (· ≤ ·)
        ((comparaisonsPostHoc exactMannWhitney none donneesTrioDemo).map
          (fun r => r.p_ajustee)) := by
  have hab : exactMannWhitney [1, 4] [2, 3] = (2, 1) := by
    norm_num [exactMannWhitney, u1Statistique, mwuProbGE,
      mwuNombreArrangements, mwuRangee, List.range_succ, min_def,
      show Nat.choose 4 2 = 6 from by decide]
  have hac : exactMannWhitney [1, 4] [5, 6] = (0, 1/3) := by
    norm_num [exactMannWhitney, u1Statistique, mwuProbGE,
      mwuNombreArrangements, mwuRangee, List.range_succ, min_def,
      show Nat.choose 4 2 = 6 from by decide]
  have hbc : exactMannWhitney [2, 3] [5, 6] = (0, 1/3) := by
    norm_num [exactMannWhitney, u1Statistique, mwuProbGE,
      mwuNombreArrangements, mwuRangee, List.range_succ, min_def,
      show Nat.choose 4 2 = 6 from by decide]
  have hea : echantillonDe donneesTrioDemo (chars "a") = [some 1, some 4] := by
    decide
  have heb : echantillonDe donneesTrioDemo (chars "b") = [some 2, some 3] := by
    decide
  have hec : echantillonDe donneesTrioDemo (chars "c") = [some 5, some 6] := by
    decide
  have hsm : sortedModalites donneesTrioDemo =
      [chars "a", chars "b", chars "c"] := by decide
  have hAB : effectuerTestMannWhitney exactMannWhitney [some 1, some 4]
      [some 2, some 3] = some ⟨2, 1, 2, 2⟩ := by
    have hv1 : valeursPropres [some 1, some 4] = [1, 4] := by decide
    have hv2 : valeursPropres [some 2, some 3] = [2, 3] := by decide
    simp [effectuerTestMannWhitney, hv1, hv2, hab]
  have hAC : effectuerTestMannWhitney exactMannWhitney [some 1, some 4]
      [some 5, some 6] = some ⟨0, 1/3, 2, 2⟩ := by
    have hv1 : valeursPropres [some 1, some 4] = [1, 4] := by decide
    have hv2 : valeursPropres [some 5, some 6] = [5, 6] := by decide
    simp [effectuerTestMannWhitney, hv1, hv2, hac]
  have hBC : effectuerTestMannWhitney exactMannWhitney [some 2, some 3]
      [some 5, some 6] = some ⟨0, 1/3, 2, 2⟩ := by
    have hv1 : valeursPropres [some 2, some 3] = [2, 3] := by decide
    have hv2 : valeursPropres [some 5, some 6] = [5, 6] := by decide
    simp [effectuerTestMannWhitney, hv1, hv2, hbc]
  have hrows : lignesMannWhitney exactMannWhitney donneesTrioDemo =
      [⟨chars "a", chars "b", 2, 1, 2, 2, 1, false⟩,
        ⟨chars "a", chars "c", 0, 1/3, 2, 2, 1/3, false⟩,
        ⟨chars "b", chars "c", 0, 1/3, 2, 2, 1/3, false⟩] := by
    simp only [lignesMannWhitney, hsm, pairesModalites, List.map_cons,
      List.map_nil, List.filterMap]
    simp [pairesModalites, hea, heb, hec, hAB, hAC, hBC]
  have hres : (comparaisonsPostHoc exactMannWhitney none donneesTrioDemo).map
      (fun r => r.p_ajustee) = [1, 1/3, 1/3] := by
    simp only [comparaisonsPostHoc, hsm, hrows]
    norm_num [affecterAjusteesMW]
  refine ⟨hres, ?_⟩
  rw [hres]
  intro hs
  have h12 := List.rel_of_sorted_cons hs (1/3) (by simp)
  norm_num at h12

/-- C7 amended: the t-test post-hoc rows are sorted ascending by the
effective p-value (`p_ajustee`, equal to the raw p-value when no correction
is supplied), for every test and correction function; the Mann-Whitney
post-hoc rows are instead returned in pair-enumeration order — exactly the
pairs on which the test yields a result, never reordered by p-value. -/
theorem posthoc_sort_behaviour (ttest mwu : List ℚ → List ℚ → ℚ × ℚ)
    (correctionT : Option (List ℚ → List ℚ))
    (correctionMW : Option (List ℚ → List ℚ × List Bool))
    (donnees : DonneesParModalite) :
    List.Sorted (fun x y : LignePostHocT => x.p_ajustee ≤ y.p_ajustee)
        (testsPostHocTtest ttest correctionT donnees) ∧
      (comparaisonsPostHoc mwu correctionMW donnees).map
          (fun r => (r.modalite_a, r.modalite_b)) =
        (pairesModalites (sortedModalites donnees)).filter
          (fun p =>
            !(effectuerTestMannWhitney mwu (echantillonDe donnees p.1)
                (echantillonDe donnees p.2)).isNone) := by
  constructor
  · unfold testsPostHocTtest
    by_cases hc : (lignesTtest ttest donnees).isEmpty = true
    · simp [hc]
    · simp only [hc, Bool.false_eq_true, if_false]
      cases correctionT with
      | none => exact List.sorted_insertionSort _ _
      | some corr => exact List.sorted_insertionSort _ _
  · unfold comparaisonsPostHoc
    by_cases hc : (sortedModalites donnees).length < 2
    · rw [if_pos hc, pairesModalites_of_short _ hc]
      rfl
    · rw [if_neg hc]
      by_cases he : (lignesMannWhitney mwu donnees).isEmpty = true
      · rw [if_pos he]
        have h0 : lignesMannWhitney mwu donnees = [] := by
          cases hx : lignesMannWhitney mwu donnees with
          | nil => rfl
          | cons a t => rw [hx] at he; simp at he
        have := lignesMannWhitney_map_paires mwu donnees
        rw [h0] at this
        rw [← this]
      · rw [if_neg he]
        cases correctionMW with
        | none =>
            rw [affecterAjusteesMW_map_paires]
            exact lignesMannWhitney_map_paires mwu donnees
        | some corr =>
            rw [affecterAjusteesMW_map_paires]
            exact lignesMannWhitney_map_paires mwu donnees


/-- `calculer_statistique_friedman` returns `None` exactly below 2 complete
blocks or 2 conditions. -/
theorem calculerFriedman_none_iff (fried : List (List ℚ) → ℚ × ℚ)
    (t : TableauApparie) :
    calculerStatistiqueFriedman fried t = none ↔
      t.lignes.length < 2 ∨ t.modeles.length < 2 := by
  unfold calculerStatistiqueFriedman
  by_cases hc : t.lignes.length < 2 ∨ t.modeles.length < 2
  · simp [hc]
  · simp [hc]

/-- When `calculer_statistique_friedman` returns a result, Kendall's W is the
statistic divided by `n_prompts * (k_modeles - 1)`, the sizes are those of
the table, and the statistic and p-value come from `friedmanchisquare` on the
table columns. -/
theorem calculerFriedman_some (fried : List (List ℚ) → ℚ × ℚ)
    (t : TableauApparie) (r : ResultatFriedman)
    (h : calculerStatistiqueFriedman fried t = some r) :
    r.kendall_w = r.statistique /
        ((r.n_prompts : ℚ) * ((r.k_modeles : ℚ) - 1)) ∧
      r.n_prompts = t.lignes.length ∧ r.k_modeles = t.modeles.length ∧
      (r.statistique, r.p_value) = fried (colonnesTableau t) := by
  unfold calculerStatistiqueFriedman at h
  by_cases hc : t.lignes.length < 2 ∨ t.modeles.length < 2
  · simp [hc] at h
  · rw [if_neg hc] at h
    push_neg at hc
    have hg : 0 < t.lignes.length ∧ 1 < t.modeles.length := by omega
    rw [if_pos hg] at h
    have h' := Option.some.inj h
    subst h'
    exact ⟨rfl, rfl, rfl, rfl⟩

/-- A complete row matches the searched block exactly when the block is known
and none of its cells is missing. -/
theorem lignesCompletes_any_iff (meth : MethodeAgregation)
    (rows : List LigneIndicateur) (b : List Char) :
    ((lignesCompletes meth rows).any (fun r => r.1 == b)) = true ↔
      (b ∈ blocsInitiaux rows ∧
        ∀ m ∈ modelesTableau rows,
          (celluleTableau rows meth b m).isSome = true) := by
  unfold lignesCompletes lignesPivot
  constructor
  · intro h
    obtain ⟨row, hrow, hbeq⟩ := List.any_eq_true.mp h
    rw [List.mem_filter] at hrow
    obtain ⟨hpivot, hall⟩ := hrow
    obtain ⟨b', hb', hbe⟩ := List.mem_map.mp hpivot
    rw [← hbe] at hbeq hall
    simp only [beq_iff_eq] at hbeq
    subst hbeq
    refine ⟨hb', ?_⟩
    intro m hm
    rw [List.all_eq_true] at hall
    exact hall (celluleTableau rows meth b' m)
      (List.mem_map.mpr ⟨m, hm, rfl⟩)
  · rintro ⟨hb, hcells⟩
    apply List.any_eq_true.mpr
    refine ⟨(b, (modelesTableau rows).map
        (fun m => celluleTableau rows meth b m)), ?_, by simp⟩
    rw [List.mem_filter]
    refine ⟨List.mem_map.mpr ⟨b, hb, rfl⟩, ?_⟩
    rw [List.all_eq_true]
    intro c hc
    obtain ⟨m, hm, hmc⟩ := List.mem_map.mp hc
    rw [← hmc]
    exact hcells m hm

/-- The excluded blocks of `construire_tableau_apparie` are exactly the
initial blocks with at least one missing condition cell. -/
theorem construire_exclus_iff (meth : MethodeAgregation)
    (rows : List LigneIndicateur) (t : TableauApparie)
    (initiaux exclus : List (List Char))
    (h : construireTableauApparie meth rows = (t, initiaux, exclus)) :
    ∀ b, b ∈ exclus ↔ (b ∈ initiaux ∧
      ∃ m ∈ t.modeles, celluleTableau rows meth b m = none) := by
  unfold construireTableauApparie at h
  by_cases hrow : rows.isEmpty = true
  · rw [if_pos hrow] at h
    injection h with h1 h23
    injection h23 with h2 h3
    subst h1; subst h2; subst h3
    simp
  · rw [if_neg hrow] at h
    injection h with h1 h23
    injection h23 with h2 h3
    subst h1; subst h2; subst h3
    intro b
    rw [List.mem_filter]
    constructor
    · rintro ⟨hb, hneg⟩
      rw [Bool.not_eq_true'] at hneg
      refine ⟨hb, ?_⟩
      by_contra hnone
      push_neg at hnone
      have hall : ∀ m ∈ modelesTableau rows,
          (celluleTableau rows meth b m).isSome = true := by
        intro m hm
        cases hx : celluleTableau rows meth b m with
        | none => exact absurd hx (hnone m hm)
        | some v => rfl
      have := (lignesCompletes_any_iff meth rows b).mpr ⟨hb, hall⟩
      rw [hneg] at this
      exact Bool.false_ne_true this
    · rintro ⟨hb, m, hm, hc⟩
      refine ⟨hb, ?_⟩
      rw [Bool.not_eq_true']
      cases hany : (lignesCompletes meth rows).any (fun r => r.1 == b) with
      | false => rfl
      | true =>
          have := ((lignesCompletes_any_iff meth rows b).mp hany).2 m hm
          rw [hc] at this
          exact absurd this (by simp)

/-- The rows kept by `construire_tableau_apparie` are the complete blocks
with their aggregated cells unchanged. -/
theorem construire_lignes_fideles (meth : MethodeAgregation)
    (rows : List LigneIndicateur) (t : TableauApparie)
    (initiaux exclus : List (List Char))
    (h : construireTableauApparie meth rows = (t, initiaux, exclus)) :
    ∀ b vs, (b, vs) ∈ t.lignes →
      b ∈ initiaux ∧
        vs = t.modeles.map (fun m => (celluleTableau rows meth b m).getD 0) ∧
        ∀ m ∈ t.modeles, (celluleTableau rows meth b m).isSome = true := by
  unfold construireTableauApparie at h
  by_cases hrow : rows.isEmpty = true
  · rw [if_pos hrow] at h
    injection h with h1 h23
    injection h23 with h2 h3
    subst h1; subst h2; subst h3
    intro b vs hmem
    simp at hmem
  · rw [if_neg hrow] at h
    injection h with h1 h23
    injection h23 with h2 h3
    subst h1; subst h2; subst h3
    intro b vs hmem
    simp only at hmem
    obtain ⟨row, hrowc, hrow2⟩ := List.mem_map.mp hmem
    unfold lignesCompletes at hrowc
    rw [List.mem_filter] at hrowc
    obtain ⟨hp, hall⟩ := hrowc
    unfold lignesPivot at hp
    obtain ⟨b', hb', hbe⟩ := List.mem_map.mp hp
    rw [← hbe] at hrow2 hall
    simp only [Prod.mk.injEq] at hrow2
    obtain ⟨hb2, hvs⟩ := hrow2
    subst hb2
    refine ⟨hb', ?_, ?_⟩
    · rw [← hvs, List.map_map]
      rfl
    · intro m hm
      rw [List.all_eq_true] at hall
      exact hall (celluleTableau rows meth b' m)
        (List.mem_map.mpr ⟨m, hm, rfl⟩)

/-- C6: `construire_tableau_apparie` drops exactly the blocks with at least
one missing condition cell and reports them in the excluded list, while the
kept rows carry the unchanged aggregated cells of complete blocks; and
`calculer_statistique_friedman` returns `None` below 2 complete blocks or 2
conditions, otherwise Kendall's W equals the chi-square statistic divided by
`n_blocks * (k_conditions - 1)`. -/
theorem friedman_pipeline (meth : MethodeAgregation)
    (rows : List LigneIndicateur) (fried : List (List ℚ) → ℚ × ℚ)
    (t : TableauApparie) (initiaux exclus : List (List Char))
    (h : construireTableauApparie meth rows = (t, initiaux, exclus)) :
    (∀ b, b ∈ exclus ↔ (b ∈ initiaux ∧
        ∃ m ∈ t.modeles, celluleTableau rows meth b m = none)) ∧
      (∀ b vs, (b, vs) ∈ t.lignes →
        b ∈ initiaux ∧
          vs = t.modeles.map
              (fun m => (celluleTableau rows meth b m).getD 0) ∧
          ∀ m ∈ t.modeles, (celluleTableau rows meth b m).isSome = true) ∧
      (calculerStatistiqueFriedman fried t = none ↔
        t.lignes.length < 2 ∨ t.modeles.length < 2) ∧
      (∀ r, calculerStatistiqueFriedman fried t = some r →
        r.kendall_w = r.statistique /
            ((r.n_prompts : ℚ) * ((r.k_modeles : ℚ) - 1)) ∧
          r.n_prompts = t.lignes.length ∧ r.k_modeles = t.modeles.length ∧
          (r.statistique, r.p_value) = fried (colonnesTableau t)) :=
  ⟨construire_exclus_iff meth rows t initiaux exclus h,
    construire_lignes_fideles meth rows t initiaux exclus h,
    calculerFriedman_none_iff fried t,
    fun r hr => calculerFriedman_some fried t r hr⟩

/-- Witness for C6: block `p2` lacks condition `m2`, is excluded and
reported, and the kept row of `p1` is unchanged. -/
theorem friedman_pipeline_witness :
    construireTableauApparie .moyenne lignesFriedmanDemo =
      (⟨[chars "m1", chars "m2"], [(chars "p1", [1, 2])]⟩,
        [chars "p1", chars "p2"], [chars "p2"]) ∧
      (chars "p2" ∈ [chars "p2"] ↔
        (chars "p2" ∈ [chars "p1", chars "p2"] ∧
          ∃ m ∈ [chars "m1", chars "m2"],
            celluleTableau lignesFriedmanDemo .moyenne (chars "p2") m =
              none)) := by
  have hv11 : valeursCellule lignesFriedmanDemo (chars "p1") (chars "m1") =
      [1] := by decide
  have hv12 : valeursCellule lignesFriedmanDemo (chars "p1") (chars "m2") =
      [2] := by decide
  have hv21 : valeursCellule lignesFriedmanDemo (chars "p2") (chars "m1") =
      [3] := by decide
  have hv22 : valeursCellule lignesFriedmanDemo (chars "p2") (chars "m2") =
      [] := by decide
  have h11 : celluleTableau lignesFriedmanDemo .moyenne (chars "p1")
      (chars "m1") = some 1 := by
    unfold celluleTableau
    rw [hv11]
    norm_num [agreger, moyenneQ]
  have h12 : celluleTableau lignesFriedmanDemo .moyenne (chars "p1")
      (chars "m2") = some 2 := by
    unfold celluleTableau
    rw [hv12]
    norm_num [agreger, moyenneQ]
  have h21 : celluleTableau lignesFriedmanDemo .moyenne (chars "p2")
      (chars "m1") = some 3 := by
    unfold celluleTableau
    rw [hv21]
    norm_num [agreger, moyenneQ]
  have h22 : celluleTableau lignesFriedmanDemo .moyenne (chars "p2")
      (chars "m2") = none := by
    unfold celluleTableau
    rw [hv22]
    simp
  have hb : blocsInitiaux lignesFriedmanDemo =
      [chars "p1", chars "p2"] := by decide
  have hm : modelesTableau lignesFriedmanDemo =
      [chars "m1", chars "m2"] := by decide
  have hpivot : lignesPivot .moyenne lignesFriedmanDemo =
      [(chars "p1", [some 1, some 2]), (chars "p2", [some 3, none])] := by
    unfold lignesPivot
    rw [hb, hm]
    simp [h11, h12, h21, h22]
  have hcomp : lignesCompletes .moyenne lignesFriedmanDemo =
      [(chars "p1", [some 1, some 2])] := by
    unfold lignesCompletes
    rw [hpivot]
    decide
  have hc : construireTableauApparie .moyenne lignesFriedmanDemo =
      (⟨[chars "m1", chars "m2"], [(chars "p1", [1, 2])]⟩,
        [chars "p1", chars "p2"], [chars "p2"]) := by
    unfold construireTableauApparie
    rw [if_neg (by decide : ¬ lignesFriedmanDemo.isEmpty = true)]
    rw [hm, hcomp, hb]
    decide
  exact ⟨hc,
    (friedman_pipeline .moyenne lignesFriedmanDemo (fun _ => (0, 0))
        ⟨[chars "m1", chars "m2"], [(chars "p1", [1, 2])]⟩
        [chars "p1", chars "p2"] [chars "p2"] hc).1 (chars "p2")⟩

/-- Invariant of the `_validate_connectors_payload` fold: every stored key
satisfies `P` provided `P` holds for every non-blank stripped key. -/
theorem validateConnectors_fold_invariant (P : List Char → Prop)
    (hP : ∀ s : List Char, pyStripSpaceTab s ≠ [] → P (pyStripSpaceTab s)) :
    ∀ (payload : List (List Char × List Char))
      (acc : List (List Char × List Char)),
      (∀ k v, (k, v) ∈ acc → P k) →
      ∀ k v,
        (k, v) ∈ payload.foldl
          (fun acc kv =>
            if pyStripSpaceTab kv.1 = [] then acc
            else
              dictInsert acc (pyStripSpaceTab kv.1)
                (if pyStrip kv.2 = [] then kv.2 else pyStrip kv.2))
          acc →
        P k := by
  intro payload
  induction payload with
  | nil =>
      intro acc hacc k v h
      exact hacc k v h
  | cons kv rest ih =>
      intro acc hacc k v h
      simp only [List.foldl_cons] at h
      refine ih _ ?_ k v h
      intro k' v' h'
      by_cases h0 : pyStripSpaceTab kv.1 = []
      · rw [if_pos h0] at h'
        exact hacc k' v' h'
      · rw [if_neg h0] at h'
        rcases dictInsert_mem _ _ _ _ _ h' with ⟨w, hw⟩ | hk
        · exact hacc k' w hw
        · rw [hk]
          exact hP kv.1 h0

/-- C9 counterexample: the upload validator keeps the two newline spellings
distinct — loading the claim's dictionary through
`_validate_connectors_payload` yields three keys, the `"\r\n"` spelling
included, and not the claimed two-key dictionary. -/
theorem validate_payload_keeps_crlf :
    validateConnectorsPayload
        [(chars " si", chars "CONDITION"), (chars "\n", chars "X"),
          (chars "\r\n", chars "X"), (chars "", chars "IGNORED")] =
      some [(chars "si", chars "CONDITION"), (chars "\n", chars "X"),
        (chars "\r\n", chars "X")] ∧
      validateConnectorsPayload
          [(chars " si", chars "CONDITION"), (chars "\n", chars "X"),
            (chars "\r\n", chars "X"), (chars "", chars "IGNORED")] ≠
        some [(chars "si", chars "CONDITION"), (chars "\n", chars "X")] := by
  refine ⟨by decide, by decide⟩

/-- C9 amended: `analyses.load_connectors` trims keys of spaces and tabs
only, drops keys blank after trimming, and merges both newline spellings
into the canonical `"\n"` key, so the claim's dictionary loads to exactly
`{si : CONDITION, "\n" : X}`; `import._validate_connectors_payload` trims
and drops identically but performs no newline merge, so the same dictionary
validates to `{si : CONDITION, "\n" : X, "\r\n" : X}` with the `"\r\n"`
spelling kept. -/
theorem connectors_loading_rules :
    loadConnectors [(chars " si", chars "CONDITION"), (chars "\n", chars "X"),
          (chars "\r\n", chars "X"), (chars "", chars "IGNORED")] =
        [(chars "si", chars "CONDITION"), (chars "\n", chars "X")] ∧
      validateConnectorsPayload
          [(chars " si", chars "CONDITION"), (chars "\n", chars "X"),
            (chars "\r\n", chars "X"), (chars "", chars "IGNORED")] =
        some [(chars "si", chars "CONDITION"), (chars "\n", chars "X"),
          (chars "\r\n", chars "X")] ∧
      (∀ payload k v, (k, v) ∈ loadConnectors payload →
        k ≠ [] ∧ k ≠ chars "\r\n" ∧
          (k = chars "\n" ∨ ∃ s, k = pyStripSpaceTab s)) ∧
      (∀ payload k v, (k, v) ∈ validateConnectorsDict payload →
        k ≠ [] ∧ ∃ s, k = pyStripSpaceTab s) := by
  refine ⟨by decide, by decide, ?_, ?_⟩
  · intro payload k v h
    unfold loadConnectors at h
    exact loadConnectors_fold_invariant
      (fun k => k ≠ [] ∧ k ≠ chars "\r\n" ∧
        (k = chars "\n" ∨ ∃ s, k = pyStripSpaceTab s))
      ⟨by decide, by decide, Or.inl rfl⟩
      (fun s hs1 hs2 => ⟨hs1, fun habs => hs2 (Or.inr habs),
        Or.inr ⟨s, rfl⟩⟩)
      payload [] (by simp) k v h
  · intro payload k v h
    unfold validateConnectorsDict at h
    exact validateConnectors_fold_invariant
      (fun k => k ≠ [] ∧ ∃ s, k = pyStripSpaceTab s)
      (fun s hs => ⟨hs, s, rfl⟩)
      payload [] (by simp) k v h

/-- Witness for the amended C9 at the `"\r\n"` key kept by the validator and
the `"si"` key produced by the loader. -/
theorem connectors_loading_rules_witness :
    ((chars "\r\n", chars "X") ∈ validateConnectorsDict
        [(chars " si", chars "CONDITION"), (chars "\n", chars "X"),
          (chars "\r\n", chars "X"), (chars "", chars "IGNORED")] ∧
      chars "\r\n" ≠ [] ∧ ∃ s, chars "\r\n" = pyStripSpaceTab s) ∧
      ((chars "si", chars "CONDITION") ∈ loadConnectors
          [(chars " si", chars "CONDITION"), (chars "\n", chars "X"),
            (chars "\r\n", chars "X"), (chars "", chars "IGNORED")] ∧
        chars "si" ≠ chars "\r\n") :=
  ⟨⟨by decide,
      connectors_loading_rules.2.2.2
        [(chars " si", chars "CONDITION"), (chars "\n", chars "X"),
          (chars "\r\n", chars "X"), (chars "", chars "IGNORED")]
        (chars "\r\n") (chars "X") (by decide)⟩,
    ⟨by decide,
      (connectors_loading_rules.2.2.1
          [(chars " si", chars "CONDITION"), (chars "\n", chars "X"),
            (chars "\r\n", chars "X"), (chars "", chars "IGNORED")]
          (chars "si") (chars "CONDITION") (by decide)).2.1⟩⟩

end SymbolicConnectors
